import Mathlib

/-!
Verification of the BITalino acquisition manager (`Bitalinomanager.py`,
`liveplot.py`) against its natural-language specification.

The Python source is shallowly embedded: numeric sample values are modelled
as rationals (`ℚ`), raw byte-level machine arithmetic does not occur in the
source; Python exceptions are modelled as `Option String` / `Except String`
values carrying the raised message; the per-session data dictionary (a Python
`dict` mapping sensor label to a growing numeric array, insertion-ordered) is
modelled as an association list.
-/

/-! ### Transfer functions (`Bitalinomanager.py` lines 79-97) -/

/-- Convert raw data to EDA (in microsiemens).  Mirrors `_raw_to_eda_uS`:
`eda = raw * VCC / (0.132 * 2**n)` with `VCC = 3.3`, `n = 10`. -/
def _raw_to_eda_uS (raw_data : ℚ) : ℚ :=
  let VCC : ℚ := 3.3
  let eda_uS := raw_data * VCC
  let n : ℕ := 10
  eda_uS / (0.132 * 2 ^ n)

/-- Convert raw data to ECG (in millivolts).  Mirrors `_raw_to_ecg_mv`:
`ecg = ((raw / 2**n) - 0.5) * (VCC / G) * 1000` with `VCC = 3.3`,
`G = 1100`, `n = 10`. -/
def _raw_to_ecg_mv (raw_data : ℚ) : ℚ :=
  let VCC : ℚ := 3.3
  let G : ℚ := 1100
  let n : ℕ := 10
  let ecg0 := raw_data / 2 ^ n
  let ecg1 := ecg0 - 0.5
  let ecg2 := ecg1 * (VCC / G)
  ecg2 * 1000

/-! ### Device state (`Bitalinomanager.py` lines 58-70)

`device_state = DictWithAttributes(DEFAULT_DEVICE_STATE)` supports attribute
reads and writes for its four fixed keys, so it is modelled as a structure.
`DEFAULT_DEVICE_STATE` itself is a plain `dict` literal; see
`defaultStateGetattr` below. -/

structure DeviceState where
  MAC : String
  selected_channels : List Nat
  sampling_rate : Nat
  connected : Bool
deriving DecidableEq, Repr

/-- The initial value of `device_state` (the contents of the
`DEFAULT_DEVICE_STATE` dict literal, wrapped in `DictWithAttributes`). -/
def initialDeviceState : DeviceState :=
  { MAC := "", selected_channels := [0], sampling_rate := 100, connected := false }

/-- Modelled Python semantics of attribute access on `DEFAULT_DEVICE_STATE`.
In the source `DEFAULT_DEVICE_STATE` is a plain `dict` literal (lines 58-63),
not a `DictWithAttributes`; attribute access on a plain dict consults only the
`dict` type's attributes, and dictionary keys are not attributes, so reading
`DEFAULT_DEVICE_STATE.MAC` (line 135) or `DEFAULT_DEVICE_STATE.sampling_rate`
(lines 122-123) raises `AttributeError`.  The function therefore always
returns the raised error, for any requested key-named attribute and any
expected value type. -/
def defaultStateGetattr (α : Type) (attr : String) : Except String α :=
  Except.error ("AttributeError: 'dict' object has no attribute '" ++ attr ++ "'")

/-! ### Channel and sampling-rate selection (`Bitalinomanager.py` lines 104-123) -/

/-- Possible values of acquisition channels (line 23). -/
def _ACQ_CHANNELS : List (String × Nat) :=
  [("A1", 0), ("A2", 1), ("A3", 2), ("A4", 3), ("A5", 4), ("A6", 5)]

/-- Lookup of a channel name in `_ACQ_CHANNELS` (`c in _ACQ_CHANNELS.keys()`
followed by `_ACQ_CHANNELS[c]`). -/
def acqChannel (c : String) : Option Nat :=
  (_ACQ_CHANNELS.find? (fun p => p.1 == c)).map Prod.snd

/-- The loop body of `_select_channels`: append the mapped index of each valid
channel to `device_state.selected_channels`, or raise on the first invalid
name, leaving the already-appended prefix in place. -/
def _select_channels_go : List String → DeviceState → Option String × DeviceState
  | [], st => (none, st)
  | c :: cs, st =>
    match acqChannel c with
    | some i =>
        _select_channels_go cs
          { st with selected_channels := st.selected_channels ++ [i] }
    | none =>
        (some ("[Invalid channel] : " ++ c ++
          ". Select from accepted channel values : A1, A2, A3, A4, A5, A6"), st)

/-- `_select_channels` (lines 106-113): first resets
`device_state.selected_channels` to `[]`, then appends mapped indices,
raising on the first invalid channel.  The first component is the raised
exception message, if any. -/
def _select_channels (channels : List String) (st : DeviceState) :
    Option String × DeviceState :=
  _select_channels_go channels { st with selected_channels := [] }

/-- Possible sampling rates (line 117). -/
def _SAMPLING_RATES : List Nat := [1, 10, 100, 1000]

/-- `_select_sampling_rate` (lines 115-123).  A valid rate is stored in
`device_state.sampling_rate`; otherwise the fallback path reads
`DEFAULT_DEVICE_STATE.sampling_rate` (a plain-dict attribute access), which
raises `AttributeError` before any assignment happens, so the state is left
unchanged. -/
def _select_sampling_rate (rate : Nat) (st : DeviceState) :
    Option String × DeviceState :=
  if rate ∈ _SAMPLING_RATES then (none, { st with sampling_rate := rate })
  else
    match defaultStateGetattr Nat "sampling_rate" with
    | Except.error m => (some m, st)
    | Except.ok v => (none, { st with sampling_rate := v })

/-! ### `connect` (`Bitalinomanager.py` lines 132-161) -/

/-- Outcome of the vendor-SDK interactions performed inside the `try` block
of `connect` (`BITalino(macAddress, timeout)` followed by `.version()`):
either the calls all succeed, or some call raises with a message. -/
inductive SDKOutcome where
  | ok
  | raises (msg : String)
deriving DecidableEq, Repr

/-- `connect` (lines 132-161).  Inside the `try` block: a `None` mac address
is replaced by `DEFAULT_DEVICE_STATE.MAC` (a plain-dict attribute access that
raises `AttributeError`), then the vendor SDK is invoked.  On success the
failure counter is reset to `0`, the MAC is stored and `connected` is set,
and the connection status (`True`) is returned.  Any exception from the
`try` block is re-raised with the `[Connection Error]` prefix after
incrementing the failure counter and clearing `connected`.  The result is
`(returned value or raised message, device_state, connection_failed_counter)`. -/
def connect (macAddress : Option String) (timeout : Nat)
    (sdk : String → Nat → SDKOutcome) (st : DeviceState) (counter : Nat) :
    Except String Bool × DeviceState × Nat :=
  let resolvedMac : Except String String :=
    match macAddress with
    | none => defaultStateGetattr String "MAC"
    | some m => Except.ok m
  let attempt : Except String (DeviceState × Nat) :=
    match resolvedMac with
    | Except.error e => Except.error e
    | Except.ok mac =>
      match sdk mac timeout with
      | SDKOutcome.raises msg => Except.error msg
      | SDKOutcome.ok => Except.ok ({ st with MAC := mac, connected := true }, 0)
  match attempt with
  | Except.ok (st2, c2) => (Except.ok st2.connected, st2, c2)
  | Except.error e =>
      (Except.error ("[Connection Error] : " ++ e),
        { st with connected := false }, counter + 1)

/-- A vendor SDK whose calls never raise (used to test `connect` when no SDK
call raises). -/
def sdkAlwaysOk : String → Nat → SDKOutcome := fun _ _ => SDKOutcome.ok

/-! ### `start_aquisition` parameters and the device-busy retry
(`Bitalinomanager.py` lines 178 and 263-285) -/

/-- The parameters of `start_aquisition` (line 178).  The field
`file_name_base` models the parameter named `file_name_prefix` in the
source. -/
structure AcqParams where
  runtime : Nat
  channels : List (String × String)
  samplingRate : Nat
  nSamples : Nat
  show_live_plot : Bool
  macAddress : Option String
  save_to_file : Bool
  file_name_base : String
  print_sample_log : Bool
deriving DecidableEq, Repr

/-- The declaration defaults of `start_aquisition` (line 178):
`runtime=0, channels={'A1': 'EDA'}, samplingRate=100, nSamples=100,
show_live_plot=False, macAddress=None, save_to_file=False,
file_name_prefix="BITALINO", print_sample_log=False`. -/
def defaultAcqParams : AcqParams :=
  { runtime := 0
    channels := [("A1", "EDA")]
    samplingRate := 100
    nSamples := 100
    show_live_plot := false
    macAddress := none
    save_to_file := false
    file_name_base := "BITALINO"
    print_sample_log := false }

/-- Message of the vendor `ExceptionCode.CONTACTING_DEVICE` constant of the
`bitalino` library (matched by string equality at line 267; the exact text
only serves as an identifying token here). -/
def CONTACTING_DEVICE : String := "The computer lost communication with the device."

/-- Message of the vendor `ExceptionCode.DEVICE_NOT_IDLE` constant of the
`bitalino` library (matched by string equality at line 278). -/
def DEVICE_NOT_IDLE : String := "The device is not idle."

/-- The parameters of the recursive `start_aquisition` call at line 283:
`start_aquisition(runtime=runtime, samplingRate=samplingRate,
nSamples=nSamples, show_live_plot=show_live_plot, save_to_file=save_to_file)`.
Only those five parameters are forwarded; `channels`, `macAddress`,
`file_name_prefix` and `print_sample_log` are not passed and take the
declaration defaults again. -/
def retryParams (p : AcqParams) : AcqParams :=
  { defaultAcqParams with
    runtime := p.runtime
    samplingRate := p.samplingRate
    nSamples := p.nSamples
    show_live_plot := p.show_live_plot
    save_to_file := p.save_to_file }

/-- What the `except Exception` handler of `start_aquisition`
(lines 266-285) does with a caught exception message: the
`CONTACTING_DEVICE` message and any unrecognized message are only printed,
while `DEVICE_NOT_IDLE` forces `force_stop_aquisition()` and re-invokes
`start_aquisition` with `retryParams`. -/
inductive AcqRecovery where
  | printOnly
  | stopAndRetry (p : AcqParams)
deriving DecidableEq, Repr

/-- Dispatch of the exception handler chain at lines 266-285 on the caught
exception's message. -/
def handleAcqError (p : AcqParams) (e : String) : AcqRecovery :=
  if e == CONTACTING_DEVICE then AcqRecovery.printOnly
  else if e == DEVICE_NOT_IDLE then AcqRecovery.stopAndRetry (retryParams p)
  else AcqRecovery.printOnly

/-- Concrete `start_aquisition` arguments used to exhibit that the
device-busy retry does not preserve all parameters. -/
def busyRetryParams : AcqParams :=
  { runtime := 5
    channels := [("A2", "ECG")]
    samplingRate := 1000
    nSamples := 10
    show_live_plot := true
    macAddress := some "00:21:08:35:14:75"
    save_to_file := true
    file_name_base := "TRIAL"
    print_sample_log := true }

/-! ### The polling loop of `start_aquisition`
(`Bitalinomanager.py` lines 189-240 and 302-311)

One iteration reads a batch `_read_data` (a matrix: one row per sample, one
column per value; columns `0..4` are the sequence number and digital IO, the
selected analog channels start at column `COLUMN_OFFSET = 5`), converts each
configured channel's column and appends it to the per-session data dict. -/

/-- Possible values of sensor types (line 25). -/
def _SENSOR_TYPES : List String := ["EDA", "ECG", "RAW"]

/-- The sensor-type check at lines 190-193: any sensor type outside
`_SENSOR_TYPES` is replaced by `'RAW'` in the `channels` dict before the
polling loop starts. -/
def normalizeSensors (channels : List (String × String)) : List (String × String) :=
  channels.map (fun p => if p.2 ∈ _SENSOR_TYPES then p else (p.1, "RAW"))

/-- Column offset of the first analog channel in `_read_data` (line 225). -/
def COLUMN_OFFSET : Nat := 5

/-- The column slice `_read_data[:, j].flatten()`: one value per sample row. -/
def column (readData : List (List ℚ)) (j : Nat) : List ℚ :=
  readData.map (fun row => row.getD j 0)

/-- The conversion chain at lines 228-235 for one channel.  It mirrors the
two consecutive conditionals of the source: `if sensor == 'EDA'` assigns the
EDA conversion, but the following `if sensor == 'ECG': ... else: ...` is a
separate statement (not `elif`), so its `else` branch reassigns
`_sensor_data` to the raw column whenever the sensor is not `'ECG'` — the
EDA assignment (kept here as the dead binding `_sensor_data`) is always
overwritten. -/
def processChannel (sensor : String) (col : List ℚ) : List ℚ :=
  let _sensor_data := if sensor == "EDA" then col.map _raw_to_eda_uS else []
  if sensor == "ECG" then col.map _raw_to_ecg_mv else col

/-- The per-session data dictionary `collected_data_in_this_session`
(`{SENSOR_TYPE : [values]}`), insertion-ordered as a Python dict. -/
abbrev Session := List (String × List ℚ)

/-- Python `collected_data_in_this_session.get(sensor, [])`. -/
def dictGet (s : Session) (k : String) : List ℚ :=
  match s with
  | [] => []
  | p :: rest => if p.1 == k then p.2 else dictGet rest k

/-- Python `collected_data_in_this_session[sensor] = v`: replace the value at
an existing key in place, else append the new key at the end. -/
def dictSet (s : Session) (k : String) (v : List ℚ) : Session :=
  match s with
  | [] => [(k, v)]
  | p :: rest => if p.1 == k then (k, v) :: rest else p :: dictSet rest k v

/-- The storage step at lines 238-240: if the sensor already has a nonempty
array, append (`np.append(..., axis=0)` concatenates), else store the batch
as the initial array. -/
def storeSensor (s : Session) (k : String) (d : List ℚ) : Session :=
  if 0 < (dictGet s k).length then dictSet s k (dictGet s k ++ d)
  else dictSet s k d

/-- One polling iteration (lines 228-240): for each `i, (ch, sensor)` in
`enumerate(channels.items())`, convert column `COLUMN_OFFSET + i` and store
it under the sensor label. -/
def processBatch (channels : List (String × String)) (readData : List (List ℚ))
    (s : Session) : Session :=
  channels.enum.foldl
    (fun acc ic =>
      storeSensor acc ic.2.2 (processChannel ic.2.2 (column readData (COLUMN_OFFSET + ic.1))))
    s

/-- The whole polling loop: the session dict starts empty (line 202) and each
batch read by `device.read(nSamples)` is processed in order. -/
def runBatches (channels : List (String × String))
    (batches : List (List (List ℚ))) : Session :=
  batches.foldl (fun s b => processBatch channels b s) []

/-- The session contents produced by `start_aquisition` for a given
`channels` argument and sequence of read batches: sensor types are first
normalized (lines 190-193), then the polling loop fills the session dict. -/
def acquisitionSession (channels : List (String × String))
    (batches : List (List (List ℚ))) : Session :=
  runBatches (normalizeSensors channels) batches

/-- The columns of the CSV written at lines 305-311:
`pd.DataFrame(collected_data_in_this_session)` has one column per dict key,
in insertion order, and `to_csv(path, index=False)` writes no index column,
so the written columns are exactly the session keys. -/
def csvColumns (s : Session) : List String := s.map Prod.fst

/-- Concatenation of the data stored under one key by a list of
`(key, data)` store operations.  Specification device for `storeSensor`
folds; not part of the source. -/
def gather : List (String × List ℚ) → String → List ℚ
  | [], _ => []
  | p :: rest, k => if p.1 == k then p.2 ++ gather rest k else gather rest k

/-- Folding `storeSensor` over a list of `(key, data)` pairs; the shape of
one polling iteration after separating conversion from storage. -/
def storeFold (items : List (String × List ℚ)) (s : Session) : Session :=
  items.foldl (fun acc p => storeSensor acc p.1 p.2) s

/-- The `(sensor, converted column)` pairs stored by one polling iteration. -/
def batchItems (channels : List (String × String))
    (readData : List (List ℚ)) : List (String × List ℚ) :=
  channels.enum.map
    (fun ic => (ic.2.2, processChannel ic.2.2 (column readData (COLUMN_OFFSET + ic.1))))

/-! ### The live-plot frame window (`Bitalinomanager.py` lines 245-252)

Each frame serializes `np.array(list(values))[:, -m:]` with
`m = int(60 * sampling_rate)`: per sensor, only the trailing `m` samples. -/

/-- Python negative-slice `l[-m:]`: the last `m` elements, or the whole list
when it is shorter; for `m = 0`, `l[-0:]` is `l[0:]`, the whole list. -/
def pySliceLast {α : Type} (m : Nat) (l : List α) : List α :=
  if m = 0 then l else l.drop (l.length - m)

/-- The rows of one live-plot frame (lines 248-249): each sensor's array cut
to the last `60 * sampling_rate` samples. -/
def frameRows (sampling_rate : Nat) (sessionRows : List (List ℚ)) : List (List ℚ) :=
  sessionRows.map (pySliceLast (60 * sampling_rate))

/-! ### The live-plot line protocol
(`Bitalinomanager.py` lines 250-252, `liveplot.py` lines 67-72)

The sender runs `json.dumps` on the nested per-sensor list and writes the
result plus `'\n'` to the child's stdin; the receiver runs
`sys.stdin.readline().strip()` and `json.loads` on the line.  `json.dumps`
uses the default separator `", "`.

The numeric payload: `.tolist()` turns the numpy matrix into Python `int`s
(when every stored array is integral, e.g. raw ADC counts) or `float`s
(whenever a converted array made the matrix float64).  `json.dumps` writes
an `int` as signed decimal digits and a finite `float` as `repr(x)`, the
shortest decimal string that parses back to exactly `x`.  A float value is
therefore identified here with the decimal `repr` emits — optional sign,
canonical integer digits, a decimal point and at least one fractional digit
(`PyFloat`); since `repr` is injective on floats and `float(repr(x)) == x`,
structural equality of these decimals coincides with equality of the floats
sent and decoded.  `repr` falls back to exponent notation only below 1e-4
in magnitude or at/above 1e16, and writes `Infinity`/`NaN` spellings only
for non-finite values; the frames' values are affine images of integer ADC
counts in [0, 1023] (EDA at most about 25.6 uS, ECG within about
plus/minus 1.5 mV with smallest nonzero magnitude about 2.9e-3), so
neither case occurs in a frame and the grammar below covers every number
the program sends.  The receiver's `json.loads` is modelled by an explicit
character-level parser for this frame grammar. -/

/-- Decimal digit character. -/
def digitChar (d : Nat) : Char := Char.ofNat (48 + d)

/-- Decimal digit string of a natural number (what Python's `json.dumps`
emits for a nonnegative integer). -/
def natDigits (n : Nat) : List Char :=
  if _h : n < 10 then [digitChar n] else natDigits (n / 10) ++ [digitChar (n % 10)]
decreasing_by exact Nat.div_lt_self (by omega) (by omega)

/-- `json.dumps` of one integer: optional minus sign and decimal digits. -/
def dumpsInt (i : Int) : List Char :=
  if i < 0 then '-' :: natDigits i.natAbs else natDigits i.natAbs

/-- The default `json.dumps` item separator `", "`. -/
def sepChars : List Char := [',', ' ']

/-- Join with `sepChars` before every element (the tail of a separated
list). -/
def joinSepTail : List (List Char) → List Char
  | [] => []
  | x :: xs => sepChars ++ x ++ joinSepTail xs

/-- Join a list of chunks with the `", "` separator between elements. -/
def joinSep : List (List Char) → List Char
  | [] => []
  | x :: xs => x ++ joinSepTail xs

/-- The decimal form of a finite Python float, as `repr` writes it and
`json.dumps` copies it: optional minus sign, canonical decimal digits of
the integer part, a decimal point, then the fractional digits. -/
structure PyFloat where
  neg : Bool
  intPart : Nat
  frac : List Nat
deriving DecidableEq, Repr

/-- Well-formedness of a float's decimal form: at least one fractional
digit (`repr` writes `512.0`, never `512.`) and decimal digits only. -/
def PyFloat.wf (f : PyFloat) : Prop := f.frac ≠ [] ∧ ∀ d ∈ f.frac, d < 10

instance (f : PyFloat) : Decidable f.wf :=
  inferInstanceAs (Decidable (f.frac ≠ [] ∧ ∀ d ∈ f.frac, d < 10))

/-- One numeric value of a frame: a Python `int`, or a Python `float`
identified with its `repr` decimal. -/
inductive PyNum where
  | int (i : Int)
  | float (f : PyFloat)
deriving DecidableEq, Repr

/-- Well-formedness of one frame value. -/
def PyNum.wf : PyNum → Prop
  | PyNum.int _ => True
  | PyNum.float f => f.wf

instance : (n : PyNum) → Decidable n.wf
  | PyNum.int _ => Decidable.isTrue True.intro
  | PyNum.float f => inferInstanceAs (Decidable f.wf)

/-- Well-formedness of a whole frame's values. -/
def wfFrame (rows : List (List PyNum)) : Prop := ∀ r ∈ rows, ∀ x ∈ r, PyNum.wf x

instance (rows : List (List PyNum)) : Decidable (wfFrame rows) :=
  inferInstanceAs (Decidable (∀ r ∈ rows, ∀ x ∈ r, PyNum.wf x))

/-- `json.dumps` of one number: signed decimal digits for an `int`, the
`repr` decimal for a `float`. -/
def dumpsNum : PyNum → List Char
  | PyNum.int i => dumpsInt i
  | PyNum.float f =>
      (if f.neg then ['-'] else []) ++ natDigits f.intPart ++
        ('.' :: f.frac.map digitChar)

/-- `json.dumps` of one inner (per-sensor) array. -/
def dumpsRow (r : List PyNum) : List Char :=
  '[' :: (joinSep (r.map dumpsNum) ++ [']'])

/-- `json.dumps` of the whole frame, an array of per-sensor arrays. -/
def dumps (rows : List (List PyNum)) : List Char :=
  '[' :: (joinSep (rows.map dumpsRow) ++ [']'])

/-- The string written to the subprocess pipe at line 251:
`arr_json + '\n'`. -/
def sendFrame (rows : List (List PyNum)) : String :=
  String.mk (dumps rows ++ ['\n'])

/-- Python `str.strip()` whitespace set (the characters removed from both
ends of the received line). -/
def pyIsSpace (c : Char) : Bool :=
  c == ' ' || c == '\t' || c == '\n' || c == '\r' || c == '\x0b' || c == '\x0c'

/-- Python `line.strip()`: drop leading and trailing whitespace. -/
def pyStrip (l : List Char) : List Char :=
  ((l.dropWhile pyIsSpace).reverse.dropWhile pyIsSpace).reverse

/-- The value of a parsed (possibly negated) digit accumulator. -/
def numVal (neg : Bool) (acc : Nat) : Int :=
  if neg then -(acc : Int) else (acc : Int)

/-- Parser state for the frame grammar: an array of arrays of numbers,
each number being either an integer or a fixed-point decimal. -/
inductive PState where
  | top
  | outerStart
  | itemOrEnd (rows : List (List PyNum)) (cur : List PyNum)
  | item (rows : List (List PyNum)) (cur : List PyNum)
  | negNum (rows : List (List PyNum)) (cur : List PyNum)
  | inNum (rows : List (List PyNum)) (cur : List PyNum) (neg : Bool) (acc : Nat)
  | dotNum (rows : List (List PyNum)) (cur : List PyNum) (neg : Bool) (acc : Nat)
  | inFrac (rows : List (List PyNum)) (cur : List PyNum) (neg : Bool) (acc : Nat)
      (fds : List Nat)
  | rowSep (rows : List (List PyNum))
  | nextRow (rows : List (List PyNum))
  | done (rows : List (List PyNum))
  | fail
deriving DecidableEq, Repr

/-- One character step of the frame parser (the `json.loads` model).
`inNum` reads the integer digits; a decimal point moves to `dotNum` (at
least one fractional digit required, as in JSON), then `inFrac` collects
the fractional digits.  A number ended by `,` or `]` is pushed as a Python
`int` when no point was read, and as a `float` otherwise — exactly how
`json.loads` types its results. -/
def stepChar (s : PState) (c : Char) : PState :=
  match s with
  | PState.top => if c == '[' then PState.outerStart else PState.fail
  | PState.outerStart =>
      if c == '[' then PState.itemOrEnd [] []
      else if c == ']' then PState.done []
      else PState.fail
  | PState.itemOrEnd rows cur =>
      if c.isDigit then PState.inNum rows cur false (c.toNat - 48)
      else if c == '-' then PState.negNum rows cur
      else if c == ']' then PState.rowSep (rows ++ [cur])
      else PState.fail
  | PState.item rows cur =>
      if c.isDigit then PState.inNum rows cur false (c.toNat - 48)
      else if c == '-' then PState.negNum rows cur
      else if c == ' ' then PState.item rows cur
      else PState.fail
  | PState.negNum rows cur =>
      if c.isDigit then PState.inNum rows cur true (c.toNat - 48)
      else PState.fail
  | PState.inNum rows cur neg acc =>
      if c.isDigit then PState.inNum rows cur neg (acc * 10 + (c.toNat - 48))
      else if c == '.' then PState.dotNum rows cur neg acc
      else if c == ',' then PState.item rows (cur ++ [PyNum.int (numVal neg acc)])
      else if c == ']' then
        PState.rowSep (rows ++ [cur ++ [PyNum.int (numVal neg acc)]])
      else PState.fail
  | PState.dotNum rows cur neg acc =>
      if c.isDigit then PState.inFrac rows cur neg acc [c.toNat - 48]
      else PState.fail
  | PState.inFrac rows cur neg acc fds =>
      if c.isDigit then PState.inFrac rows cur neg acc (fds ++ [c.toNat - 48])
      else if c == ',' then
        PState.item rows (cur ++ [PyNum.float ⟨neg, acc, fds⟩])
      else if c == ']' then
        PState.rowSep (rows ++ [cur ++ [PyNum.float ⟨neg, acc, fds⟩]])
      else PState.fail
  | PState.rowSep rows =>
      if c == ',' then PState.nextRow rows
      else if c == ']' then PState.done rows
      else PState.fail
  | PState.nextRow rows =>
      if c == ' ' then PState.nextRow rows
      else if c == '[' then PState.itemOrEnd rows []
      else PState.fail
  | PState.done _ => PState.fail
  | PState.fail => PState.fail

/-- `json.loads` of a received line, restricted to the frame grammar: the
parse succeeds exactly when the machine ends in `done`. -/
def loads (l : List Char) : Option (List (List PyNum)) :=
  match l.foldl stepChar PState.top with
  | PState.done rows => some rows
  | _ => none

/-- The receiver's processing of one line (`liveplot.py` lines 70-71):
`json.loads(sys.stdin.readline().strip())`, where `readline` yields the
characters sent up to and including the `'\n'`. -/
def receiveFrame (line : String) : Option (List (List PyNum)) :=
  loads (pyStrip line.data)

/-! ## Lemmas about the live-plot line protocol -/

theorem digitChar_isDigit {d : Nat} (hd : d < 10) : (digitChar d).isDigit = true := by
  interval_cases d <;> decide

theorem digitChar_toNat {d : Nat} (hd : d < 10) : (digitChar d).toNat - 48 = d := by
  interval_cases d <;> decide

theorem digitChar_ne_nl {d : Nat} (hd : d < 10) : digitChar d ≠ '\n' := by
  interval_cases d <;> decide

theorem step_top_lb : stepChar PState.top '[' = PState.outerStart := by decide

theorem step_outerStart_lb : stepChar PState.outerStart '[' = PState.itemOrEnd [] [] := by
  decide

theorem step_outerStart_rb : stepChar PState.outerStart ']' = PState.done [] := by decide

theorem step_itemOrEnd_digit (rows : List (List PyNum)) (cur : List PyNum) {d : Nat}
    (hd : d < 10) :
    stepChar (PState.itemOrEnd rows cur) (digitChar d) = PState.inNum rows cur false d := by
  simp [stepChar, digitChar_isDigit hd, digitChar_toNat hd]

theorem step_itemOrEnd_minus (rows : List (List PyNum)) (cur : List PyNum) :
    stepChar (PState.itemOrEnd rows cur) '-' = PState.negNum rows cur := by
  have h : ('-'.isDigit) = false := by decide
  simp [stepChar, h]

theorem step_itemOrEnd_rb (rows : List (List PyNum)) (cur : List PyNum) :
    stepChar (PState.itemOrEnd rows cur) ']' = PState.rowSep (rows ++ [cur]) := by
  have h1 : (']'.isDigit) = false := by decide
  have h2 : ((']' : Char) == '-') = false := by decide
  simp [stepChar, h1, h2]

theorem step_item_digit (rows : List (List PyNum)) (cur : List PyNum) {d : Nat}
    (hd : d < 10) :
    stepChar (PState.item rows cur) (digitChar d) = PState.inNum rows cur false d := by
  simp [stepChar, digitChar_isDigit hd, digitChar_toNat hd]

theorem step_item_minus (rows : List (List PyNum)) (cur : List PyNum) :
    stepChar (PState.item rows cur) '-' = PState.negNum rows cur := by
  have h : ('-'.isDigit) = false := by decide
  simp [stepChar, h]

theorem step_item_space (rows : List (List PyNum)) (cur : List PyNum) :
    stepChar (PState.item rows cur) ' ' = PState.item rows cur := by
  have h1 : (' '.isDigit) = false := by decide
  have h2 : ((' ' : Char) == '-') = false := by decide
  simp [stepChar, h1, h2]

theorem step_negNum_digit (rows : List (List PyNum)) (cur : List PyNum) {d : Nat}
    (hd : d < 10) :
    stepChar (PState.negNum rows cur) (digitChar d) = PState.inNum rows cur true d := by
  simp [stepChar, digitChar_isDigit hd, digitChar_toNat hd]

theorem step_inNum_digit (rows : List (List PyNum)) (cur : List PyNum) (neg : Bool)
    (acc : Nat) {d : Nat} (hd : d < 10) :
    stepChar (PState.inNum rows cur neg acc) (digitChar d) =
      PState.inNum rows cur neg (acc * 10 + d) := by
  simp [stepChar, digitChar_isDigit hd, digitChar_toNat hd]

theorem step_inNum_dot (rows : List (List PyNum)) (cur : List PyNum) (neg : Bool)
    (acc : Nat) :
    stepChar (PState.inNum rows cur neg acc) '.' = PState.dotNum rows cur neg acc := by
  have h : ('.'.isDigit) = false := by decide
  simp [stepChar, h]

theorem step_inNum_comma (rows : List (List PyNum)) (cur : List PyNum) (neg : Bool)
    (acc : Nat) :
    stepChar (PState.inNum rows cur neg acc) ',' =
      PState.item rows (cur ++ [PyNum.int (numVal neg acc)]) := by
  have h1 : (','.isDigit) = false := by decide
  have h2 : ((',' : Char) == '.') = false := by decide
  simp [stepChar, h1, h2]

theorem step_inNum_rb (rows : List (List PyNum)) (cur : List PyNum) (neg : Bool)
    (acc : Nat) :
    stepChar (PState.inNum rows cur neg acc) ']' =
      PState.rowSep (rows ++ [cur ++ [PyNum.int (numVal neg acc)]]) := by
  have h1 : (']'.isDigit) = false := by decide
  have h2 : ((']' : Char) == '.') = false := by decide
  have h3 : ((']' : Char) == ',') = false := by decide
  simp [stepChar, h1, h2, h3]

theorem step_dotNum_digit (rows : List (List PyNum)) (cur : List PyNum) (neg : Bool)
    (acc : Nat) {d : Nat} (hd : d < 10) :
    stepChar (PState.dotNum rows cur neg acc) (digitChar d) =
      PState.inFrac rows cur neg acc [d] := by
  simp [stepChar, digitChar_isDigit hd, digitChar_toNat hd]

theorem step_inFrac_digit (rows : List (List PyNum)) (cur : List PyNum) (neg : Bool)
    (acc : Nat) (fds : List Nat) {d : Nat} (hd : d < 10) :
    stepChar (PState.inFrac rows cur neg acc fds) (digitChar d) =
      PState.inFrac rows cur neg acc (fds ++ [d]) := by
  simp [stepChar, digitChar_isDigit hd, digitChar_toNat hd]

theorem step_inFrac_comma (rows : List (List PyNum)) (cur : List PyNum) (neg : Bool)
    (acc : Nat) (fds : List Nat) :
    stepChar (PState.inFrac rows cur neg acc fds) ',' =
      PState.item rows (cur ++ [PyNum.float ⟨neg, acc, fds⟩]) := by
  have h : (','.isDigit) = false := by decide
  simp [stepChar, h]

theorem step_inFrac_rb (rows : List (List PyNum)) (cur : List PyNum) (neg : Bool)
    (acc : Nat) (fds : List Nat) :
    stepChar (PState.inFrac rows cur neg acc fds) ']' =
      PState.rowSep (rows ++ [cur ++ [PyNum.float ⟨neg, acc, fds⟩]]) := by
  have h1 : (']'.isDigit) = false := by decide
  have h2 : ((']' : Char) == ',') = false := by decide
  simp [stepChar, h1, h2]

theorem step_rowSep_comma (rows : List (List PyNum)) :
    stepChar (PState.rowSep rows) ',' = PState.nextRow rows := by
  simp [stepChar]

theorem step_rowSep_rb (rows : List (List PyNum)) :
    stepChar (PState.rowSep rows) ']' = PState.done rows := by
  have h : ((']' : Char) == ',') = false := by decide
  simp [stepChar, h]

theorem step_nextRow_space (rows : List (List PyNum)) :
    stepChar (PState.nextRow rows) ' ' = PState.nextRow rows := by
  simp [stepChar]

theorem step_nextRow_lb (rows : List (List PyNum)) :
    stepChar (PState.nextRow rows) '[' = PState.itemOrEnd rows [] := by
  have h : (('[' : Char) == ' ') = false := by decide
  simp [stepChar, h]

theorem numVal_natAbs (i : Int) : numVal (decide (i < 0)) i.natAbs = i := by
  by_cases h : i < 0
  · rw [decide_eq_true h]
    simp only [numVal, if_true]
    omega
  · rw [decide_eq_false h]
    simp only [numVal, Bool.false_eq_true, if_false]
    omega

theorem run_natDigits (st : PState) (rows : List (List PyNum)) (cur : List PyNum)
    (neg : Bool)
    (h0 : ∀ d, d < 10 → stepChar st (digitChar d) = PState.inNum rows cur neg d) :
    ∀ n, List.foldl stepChar st (natDigits n) = PState.inNum rows cur neg n := by
  intro n
  induction n using Nat.strong_induction_on with
  | _ n ih =>
    rw [natDigits]
    split
    · next h =>
      simp only [List.foldl_cons, List.foldl_nil]
      exact h0 n h
    · next h =>
      rw [List.foldl_append]
      rw [ih (n / 10) (Nat.div_lt_self (by omega) (by omega))]
      simp only [List.foldl_cons, List.foldl_nil]
      rw [step_inNum_digit rows cur neg (n / 10) (Nat.mod_lt n (by omega))]
      congr 1
      omega

theorem run_dumpsInt (st : PState) (rows : List (List PyNum)) (cur : List PyNum)
    (h0 : ∀ d, d < 10 → stepChar st (digitChar d) = PState.inNum rows cur false d)
    (h1 : stepChar st '-' = PState.negNum rows cur) :
    ∀ i : Int, List.foldl stepChar st (dumpsInt i) =
      PState.inNum rows cur (decide (i < 0)) i.natAbs := by
  intro i
  by_cases hneg : i < 0
  · rw [dumpsInt, if_pos hneg]
    simp only [List.foldl_cons]
    rw [h1]
    rw [run_natDigits (PState.negNum rows cur) rows cur true
        (fun d hd => step_negNum_digit rows cur hd) i.natAbs]
    rw [decide_eq_true hneg]
  · rw [dumpsInt, if_neg hneg]
    rw [run_natDigits st rows cur false h0 i.natAbs]
    rw [decide_eq_false hneg]

theorem run_fracDigits :
    ∀ (fds : List Nat), (∀ d ∈ fds, d < 10) →
      ∀ (rows : List (List PyNum)) (cur : List PyNum) (neg : Bool) (acc : Nat)
        (fds0 : List Nat),
        List.foldl stepChar (PState.inFrac rows cur neg acc fds0)
            (fds.map digitChar) = PState.inFrac rows cur neg acc (fds0 ++ fds) := by
  intro fds
  induction fds with
  | nil => intro _ rows cur neg acc fds0; simp
  | cons d rest ih =>
    intro h rows cur neg acc fds0
    simp only [List.map_cons, List.foldl_cons]
    rw [step_inFrac_digit rows cur neg acc fds0 (h d (List.mem_cons_self d rest))]
    rw [ih (fun e he => h e (List.mem_cons_of_mem d he)) rows cur neg acc (fds0 ++ [d])]
    simp

theorem run_num_core (st : PState) (rows : List (List PyNum)) (cur : List PyNum)
    (h0 : ∀ d, d < 10 → stepChar st (digitChar d) = PState.inNum rows cur false d)
    (h1 : stepChar st '-' = PState.negNum rows cur) :
    ∀ x : PyNum, PyNum.wf x →
      ∃ fin : PState,
        List.foldl stepChar st (dumpsNum x) = fin ∧
        stepChar fin ',' = PState.item rows (cur ++ [x]) ∧
        stepChar fin ']' = PState.rowSep (rows ++ [cur ++ [x]]) := by
  intro x hwx
  cases x with
  | int i =>
    refine ⟨PState.inNum rows cur (decide (i < 0)) i.natAbs, ?_, ?_, ?_⟩
    · exact run_dumpsInt st rows cur h0 h1 i
    · rw [step_inNum_comma, numVal_natAbs]
    · rw [step_inNum_rb, numVal_natAbs]
  | float f =>
    have hw : f.wf := hwx
    obtain ⟨fh, ft, hfr⟩ := List.exists_cons_of_ne_nil hw.1
    have hfh : fh < 10 := hw.2 fh (by rw [hfr]; exact List.mem_cons_self fh ft)
    have hft : ∀ d ∈ ft, d < 10 :=
      fun d hd => hw.2 d (by rw [hfr]; exact List.mem_cons_of_mem fh hd)
    refine ⟨PState.inFrac rows cur f.neg f.intPart f.frac, ?_, ?_, ?_⟩
    · simp only [dumpsNum]
      rw [List.foldl_append, List.foldl_append]
      have hs2 : List.foldl stepChar
          (List.foldl stepChar st (if f.neg = true then ['-'] else []))
          (natDigits f.intPart) = PState.inNum rows cur f.neg f.intPart := by
        by_cases hn : f.neg = true
        · rw [if_pos hn, hn]
          simp only [List.foldl_cons, List.foldl_nil]
          rw [h1]
          exact run_natDigits (PState.negNum rows cur) rows cur true
            (fun d hd => step_negNum_digit rows cur hd) f.intPart
        · have hn' : f.neg = false := by simpa using hn
          rw [if_neg hn, hn']
          simp only [List.foldl_nil]
          exact run_natDigits st rows cur false h0 f.intPart
      rw [hs2]
      simp only [List.foldl_cons]
      rw [step_inNum_dot, hfr]
      simp only [List.map_cons, List.foldl_cons]
      rw [step_dotNum_digit rows cur f.neg f.intPart hfh]
      rw [run_fracDigits ft hft rows cur f.neg f.intPart [fh]]
      simp
    · rw [step_inFrac_comma]
    · rw [step_inFrac_rb]

theorem run_row_items :
    ∀ (xs : List PyNum) (x : PyNum) (rows : List (List PyNum)) (cur : List PyNum)
      (st : PState),
      (∀ d, d < 10 → stepChar st (digitChar d) = PState.inNum rows cur false d) →
      stepChar st '-' = PState.negNum rows cur →
      PyNum.wf x → (∀ y ∈ xs, PyNum.wf y) →
      List.foldl stepChar st (dumpsNum x ++ (joinSepTail (xs.map dumpsNum) ++ [']'])) =
        PState.rowSep (rows ++ [cur ++ x :: xs]) := by
  intro xs
  induction xs with
  | nil =>
    intro x rows cur st h0 h1 hwx _
    obtain ⟨fin, hrun, _, hrb⟩ := run_num_core st rows cur h0 h1 x hwx
    simp only [List.map_nil, joinSepTail, List.nil_append]
    rw [List.foldl_append, hrun]
    simp only [List.foldl_cons, List.foldl_nil]
    rw [hrb]
  | cons y ys ih =>
    intro x rows cur st h0 h1 hwx hwxs
    obtain ⟨fin, hrun, hcomma, _⟩ := run_num_core st rows cur h0 h1 x hwx
    simp only [List.map_cons, joinSepTail, sepChars, List.append_assoc,
      List.cons_append, List.nil_append]
    rw [List.foldl_append, hrun]
    simp only [List.foldl_cons]
    rw [hcomma, step_item_space]
    rw [ih y rows (cur ++ [x]) (PState.item rows (cur ++ [x]))
      (fun d hd => step_item_digit rows (cur ++ [x]) hd)
      (step_item_minus rows (cur ++ [x]))
      (hwxs y (List.mem_cons_self y ys))
      (fun z hz => hwxs z (List.mem_cons_of_mem y hz))]
    simp

theorem run_row (st : PState) (rows : List (List PyNum))
    (h : stepChar st '[' = PState.itemOrEnd rows []) :
    ∀ r : List PyNum, (∀ x ∈ r, PyNum.wf x) →
      List.foldl stepChar st (dumpsRow r) = PState.rowSep (rows ++ [r]) := by
  intro r hwr
  cases r with
  | nil =>
    simp only [dumpsRow, List.map_nil, joinSep, List.nil_append, List.foldl_cons,
      List.foldl_nil]
    rw [h, step_itemOrEnd_rb]
  | cons x xs =>
    simp only [dumpsRow, List.map_cons, joinSep, List.append_assoc, List.foldl_cons]
    rw [h]
    have := run_row_items xs x rows [] (PState.itemOrEnd rows [])
      (fun d hd => step_itemOrEnd_digit rows [] hd) (step_itemOrEnd_minus rows [])
      (hwr x (List.mem_cons_self x xs)) (fun y hy => hwr y (List.mem_cons_of_mem x hy))
    simpa using this

theorem run_rows_tail :
    ∀ (rest : List (List PyNum)) (rows : List (List PyNum)),
      (∀ r ∈ rest, ∀ x ∈ r, PyNum.wf x) →
      List.foldl stepChar (PState.rowSep rows)
          (joinSepTail (rest.map dumpsRow) ++ [']']) = PState.done (rows ++ rest) := by
  intro rest
  induction rest with
  | nil =>
    intro rows _
    simp only [List.map_nil, joinSepTail, List.nil_append, List.foldl_cons,
      List.foldl_nil]
    rw [step_rowSep_rb]
    simp
  | cons r rest ih =>
    intro rows hwf
    simp only [List.map_cons, joinSepTail, sepChars, List.append_assoc,
      List.cons_append, List.nil_append, List.foldl_cons]
    rw [step_rowSep_comma, step_nextRow_space]
    rw [List.foldl_append]
    rw [run_row (PState.nextRow rows) rows (step_nextRow_lb rows) r
      (fun x hx => hwf r (List.mem_cons_self r rest) x hx)]
    rw [ih (rows ++ [r]) (fun q hq x hx => hwf q (List.mem_cons_of_mem r hq) x hx)]
    simp

theorem run_dumps : ∀ rows : List (List PyNum), wfFrame rows →
    List.foldl stepChar PState.top (dumps rows) = PState.done rows := by
  intro rows hwf
  cases rows with
  | nil =>
    simp only [dumps, List.map_nil, joinSep, List.nil_append, List.foldl_cons,
      List.foldl_nil]
    rw [step_top_lb, step_outerStart_rb]
  | cons r rest =>
    simp only [dumps, List.map_cons, joinSep, List.append_assoc, List.foldl_cons]
    rw [step_top_lb]
    rw [List.foldl_append]
    rw [run_row PState.outerStart [] step_outerStart_lb r
      (fun x hx => hwf r (List.mem_cons_self r rest) x hx)]
    rw [run_rows_tail rest ([] ++ [r])
      (fun q hq x hx => hwf q (List.mem_cons_of_mem r hq) x hx)]
    simp

theorem natDigits_no_nl : ∀ n, '\n' ∉ natDigits n := by
  intro n
  induction n using Nat.strong_induction_on with
  | _ n ih =>
    rw [natDigits]
    split
    · next h =>
      simp only [List.mem_singleton]
      intro he
      exact digitChar_ne_nl h he.symm
    · next h =>
      intro hmem
      rcases List.mem_append.mp hmem with h1 | h1
      · exact ih (n / 10) (Nat.div_lt_self (by omega) (by omega)) h1
      · rw [List.mem_singleton] at h1
        exact digitChar_ne_nl (Nat.mod_lt n (by omega)) h1.symm

theorem dumpsInt_no_nl (i : Int) : '\n' ∉ dumpsInt i := by
  unfold dumpsInt
  split
  · intro hmem
    rcases List.mem_cons.mp hmem with h | h
    · exact absurd h (by decide)
    · exact natDigits_no_nl _ h
  · exact natDigits_no_nl _

theorem joinSepTail_no_nl :
    ∀ (xs : List (List Char)), (∀ x ∈ xs, '\n' ∉ x) → '\n' ∉ joinSepTail xs := by
  intro xs
  induction xs with
  | nil => intro _; simp [joinSepTail]
  | cons x rest ih =>
    intro h
    simp only [joinSepTail, sepChars]
    intro hmem
    rcases List.mem_append.mp hmem with h1 | h1
    · rcases List.mem_append.mp h1 with h2 | h2
      · exact absurd h2 (by decide)
      · exact h x (List.mem_cons_self x rest) h2
    · exact ih (fun y hy => h y (List.mem_cons_of_mem x hy)) h1

theorem joinSep_no_nl (xs : List (List Char)) (h : ∀ x ∈ xs, '\n' ∉ x) :
    '\n' ∉ joinSep xs := by
  cases xs with
  | nil => simp [joinSep]
  | cons x rest =>
    simp only [joinSep]
    intro hmem
    rcases List.mem_append.mp hmem with h1 | h1
    · exact h x (List.mem_cons_self x rest) h1
    · exact joinSepTail_no_nl rest (fun y hy => h y (List.mem_cons_of_mem x hy)) h1

theorem dumpsNum_no_nl (x : PyNum) (hw : PyNum.wf x) : '\n' ∉ dumpsNum x := by
  cases x with
  | int i => exact dumpsInt_no_nl i
  | float f =>
    have hw' : f.wf := hw
    simp only [dumpsNum]
    intro hmem
    rcases List.mem_append.mp hmem with h1 | h1
    · rcases List.mem_append.mp h1 with h2 | h2
      · by_cases hn : f.neg = true
        · rw [if_pos hn] at h2
          exact absurd h2 (by decide)
        · rw [if_neg hn] at h2
          exact absurd h2 (List.not_mem_nil _)
      · exact natDigits_no_nl _ h2
    · rcases List.mem_cons.mp h1 with h2 | h2
      · exact absurd h2 (by decide)
      · rcases List.mem_map.mp h2 with ⟨d, hd, he⟩
        exact digitChar_ne_nl (hw'.2 d hd) he

theorem dumpsRow_no_nl (r : List PyNum) (hw : ∀ x ∈ r, PyNum.wf x) :
    '\n' ∉ dumpsRow r := by
  unfold dumpsRow
  intro hmem
  rcases List.mem_cons.mp hmem with h | h
  · exact absurd h (by decide)
  · rcases List.mem_append.mp h with h1 | h1
    · refine joinSep_no_nl _ ?_ h1
      intro x hx
      rcases List.mem_map.mp hx with ⟨n, hn, rfl⟩
      exact dumpsNum_no_nl n (hw n hn)
    · exact absurd h1 (by decide)

theorem dumps_no_nl (rows : List (List PyNum)) (hwf : wfFrame rows) :
    '\n' ∉ dumps rows := by
  unfold dumps
  intro hmem
  rcases List.mem_cons.mp hmem with h | h
  · exact absurd h (by decide)
  · rcases List.mem_append.mp h with h1 | h1
    · refine joinSep_no_nl _ ?_ h1
      intro x hx
      rcases List.mem_map.mp hx with ⟨r, hr, rfl⟩
      exact dumpsRow_no_nl r (fun n hn => hwf r hr n hn)
    · exact absurd h1 (by decide)

theorem pyIsSpace_lb : pyIsSpace '[' = false := by decide

theorem pyIsSpace_rb : pyIsSpace ']' = false := by decide

theorem pyIsSpace_nl : pyIsSpace '\n' = true := by decide

theorem pyStrip_frame (rows : List (List PyNum)) :
    pyStrip (dumps rows ++ ['\n']) = dumps rows := by
  have hmid : dumps rows = '[' :: (joinSep (rows.map dumpsRow) ++ [']']) := rfl
  rw [hmid]
  unfold pyStrip
  rw [List.cons_append, List.dropWhile_cons]
  rw [if_neg (by simp [pyIsSpace_lb])]
  rw [show ('[' :: ((joinSep (rows.map dumpsRow) ++ [']']) ++ ['\n'])).reverse =
      '\n' :: (']' :: ((joinSep (rows.map dumpsRow)).reverse ++ ['['])) from by simp]
  rw [List.dropWhile_cons, if_pos (by simp [pyIsSpace_nl])]
  rw [List.dropWhile_cons, if_neg (by simp [pyIsSpace_rb])]
  simp

/-! ## Lemmas about the session dictionary -/

theorem dictGet_dictSet_self (s : Session) (k : String) (v : List ℚ) :
    dictGet (dictSet s k v) k = v := by
  induction s with
  | nil => simp [dictGet, dictSet]
  | cons p rest ih =>
    by_cases h : p.1 = k
    · simp [dictGet, dictSet, h]
    · simp [dictGet, dictSet, beq_iff_eq, h, ih]

theorem dictGet_dictSet_ne (s : Session) {k k' : String} (v : List ℚ)
    (h : k' ≠ k) : dictGet (dictSet s k v) k' = dictGet s k' := by
  induction s with
  | nil => simp [dictGet, dictSet, beq_iff_eq, Ne.symm h]
  | cons p rest ih =>
    by_cases hp : p.1 = k
    · simp [dictGet, dictSet, beq_iff_eq, hp, Ne.symm h]
    · by_cases hp' : p.1 = k'
      · simp [dictGet, dictSet, beq_iff_eq, hp, hp', h]
      · simp [dictGet, dictSet, beq_iff_eq, hp, hp', ih]

theorem keys_dictSet (s : Session) (k : String) (v : List ℚ) :
    (dictSet s k v).map Prod.fst =
      if k ∈ s.map Prod.fst then s.map Prod.fst else s.map Prod.fst ++ [k] := by
  induction s with
  | nil => simp [dictSet]
  | cons p rest ih =>
    by_cases hp : p.1 = k
    · simp [dictSet, beq_iff_eq, hp]
    · by_cases hm : k ∈ rest.map Prod.fst
      · simp [dictSet, beq_iff_eq, hp, hm, ih, Ne.symm hp]
      · simp [dictSet, beq_iff_eq, hp, hm, ih, Ne.symm hp]

theorem mem_keys_dictSet (s : Session) (k k' : String) (v : List ℚ) :
    k' ∈ (dictSet s k v).map Prod.fst ↔ k' ∈ s.map Prod.fst ∨ k' = k := by
  rw [keys_dictSet]
  by_cases hm : k ∈ s.map Prod.fst
  · simp only [hm, if_true]
    constructor
    · exact Or.inl
    · rintro (h | rfl)
      · exact h
      · exact hm
  · simp [hm]

theorem nodup_keys_dictSet (s : Session) (k : String) (v : List ℚ)
    (h : (s.map Prod.fst).Nodup) : ((dictSet s k v).map Prod.fst).Nodup := by
  rw [keys_dictSet]
  by_cases hm : k ∈ s.map Prod.fst
  · simpa [hm] using h
  · simp only [hm, if_false]
    simp only [List.nodup_append, List.nodup_cons, List.not_mem_nil,
      not_false_iff, List.nodup_nil, and_true, true_and]
    refine ⟨h, ?_⟩
    intro a ha
    simp only [List.mem_singleton]
    intro hak
    exact hm (hak ▸ ha)

theorem dictGet_eq_of_mem {s : Session} {p : String × List ℚ}
    (hnd : (s.map Prod.fst).Nodup) (hp : p ∈ s) : dictGet s p.1 = p.2 := by
  induction s with
  | nil => cases hp
  | cons q rest ih =>
    rcases List.mem_cons.mp hp with rfl | hmem
    · simp [dictGet]
    · have hq : q.1 ≠ p.1 := by
        intro he
        have : p.1 ∈ rest.map Prod.fst := List.mem_map_of_mem Prod.fst hmem
        rw [List.map_cons, List.nodup_cons] at hnd
        exact hnd.1 (he ▸ this)
      have hnd' : (rest.map Prod.fst).Nodup := by
        rw [List.map_cons, List.nodup_cons] at hnd
        exact hnd.2
      simp [dictGet, beq_iff_eq, hq, ih hnd' hmem]

theorem dictGet_storeSensor_self (s : Session) (k : String) (d : List ℚ) :
    dictGet (storeSensor s k d) k = dictGet s k ++ d := by
  by_cases hl : 0 < (dictGet s k).length
  · simp [storeSensor, hl, dictGet_dictSet_self]
  · have h0 : dictGet s k = [] := by
      rw [← List.length_eq_zero]
      omega
    simp [storeSensor, hl, dictGet_dictSet_self, h0]

theorem dictGet_storeSensor_ne (s : Session) {k k' : String} (d : List ℚ)
    (h : k' ≠ k) : dictGet (storeSensor s k d) k' = dictGet s k' := by
  by_cases hl : 0 < (dictGet s k).length <;>
    simp [storeSensor, hl, dictGet_dictSet_ne _ _ h]

theorem mem_keys_storeSensor (s : Session) (k k' : String) (d : List ℚ) :
    k' ∈ (storeSensor s k d).map Prod.fst ↔ k' ∈ s.map Prod.fst ∨ k' = k := by
  unfold storeSensor
  by_cases hl : 0 < (dictGet s k).length
  · rw [if_pos hl]; exact mem_keys_dictSet s k k' _
  · rw [if_neg hl]; exact mem_keys_dictSet s k k' _

theorem nodup_keys_storeSensor (s : Session) (k : String) (d : List ℚ)
    (h : (s.map Prod.fst).Nodup) : ((storeSensor s k d).map Prod.fst).Nodup := by
  by_cases hl : 0 < (dictGet s k).length <;>
    simp [storeSensor, hl, nodup_keys_dictSet _ _ _ h]

/-! ## Lemmas about `gather` and `storeFold` -/

theorem gather_eq_nil {items : List (String × List ℚ)} {k : String}
    (h : k ∉ items.map Prod.fst) : gather items k = [] := by
  induction items with
  | nil => rfl
  | cons p rest ih =>
    simp only [List.map_cons, List.mem_cons] at h
    push_neg at h
    simp [gather, beq_iff_eq, Ne.symm h.1, ih h.2]

theorem gather_length {items : List (String × List ℚ)} {k : String} {n : Nat}
    (hnd : (items.map Prod.fst).Nodup) (hk : k ∈ items.map Prod.fst)
    (hlen : ∀ p ∈ items, p.2.length = n) : (gather items k).length = n := by
  induction items with
  | nil => cases hk
  | cons p rest ih =>
    rw [List.map_cons, List.nodup_cons] at hnd
    by_cases hp : p.1 = k
    · have hout : gather rest k = [] := gather_eq_nil (hp ▸ hnd.1)
      simp [gather, beq_iff_eq, hp, hout, hlen p (List.mem_cons_self p rest)]
    · have hk' : k ∈ rest.map Prod.fst := by
        rcases List.mem_cons.mp hk with h | h
        · exact absurd h.symm hp
        · exact h
      have ih' := ih hnd.2 hk' (fun q hq => hlen q (List.mem_cons_of_mem p hq))
      simp [gather, beq_iff_eq, hp, ih']

theorem dictGet_storeFold (items : List (String × List ℚ)) (s : Session)
    (k : String) :
    dictGet (storeFold items s) k = dictGet s k ++ gather items k := by
  induction items generalizing s with
  | nil => simp [storeFold, gather]
  | cons p rest ih =>
    show dictGet (storeFold rest (storeSensor s p.1 p.2)) k = _
    rw [ih]
    by_cases hp : p.1 = k
    · rw [hp, dictGet_storeSensor_self]
      simp [gather, beq_iff_eq, hp]
    · rw [dictGet_storeSensor_ne _ _ (fun he => hp he.symm)]
      simp [gather, beq_iff_eq, hp]

theorem mem_keys_storeFold (items : List (String × List ℚ)) (s : Session)
    (k : String) :
    k ∈ (storeFold items s).map Prod.fst ↔
      k ∈ s.map Prod.fst ∨ k ∈ items.map Prod.fst := by
  induction items generalizing s with
  | nil => simp [storeFold]
  | cons p rest ih =>
    show k ∈ (storeFold rest (storeSensor s p.1 p.2)).map Prod.fst ↔ _
    rw [ih, mem_keys_storeSensor]
    simp only [List.map_cons, List.mem_cons]
    tauto

theorem nodup_keys_storeFold (items : List (String × List ℚ)) (s : Session)
    (h : (s.map Prod.fst).Nodup) : ((storeFold items s).map Prod.fst).Nodup := by
  induction items generalizing s with
  | nil => exact h
  | cons p rest ih =>
    exact ih (storeSensor s p.1 p.2) (nodup_keys_storeSensor _ _ _ h)

/-! ## Lemmas about `processBatch` and `runBatches` -/

theorem processBatch_eq_storeFold (channels : List (String × String))
    (readData : List (List ℚ)) (s : Session) :
    processBatch channels readData s = storeFold (batchItems channels readData) s := by
  unfold processBatch storeFold batchItems
  rw [List.foldl_map]

theorem enumFrom_map_sensor (l : List (String × String)) (n : Nat) :
    (List.enumFrom n l).map (fun ic => ic.2.2) = l.map Prod.snd := by
  induction l generalizing n with
  | nil => rfl
  | cons p rest ih => simp [List.enumFrom, ih]

theorem batchItems_keys (channels : List (String × String))
    (readData : List (List ℚ)) :
    (batchItems channels readData).map Prod.fst = channels.map Prod.snd := by
  unfold batchItems
  rw [List.map_map]
  exact enumFrom_map_sensor channels 0

theorem processChannel_length (sensor : String) (col : List ℚ) :
    (processChannel sensor col).length = col.length := by
  by_cases h : sensor = "ECG" <;> simp [processChannel, beq_iff_eq, h]

theorem column_length (readData : List (List ℚ)) (j : Nat) :
    (column readData j).length = readData.length := by
  simp [column]

theorem batchItems_datalen (channels : List (String × String))
    (readData : List (List ℚ)) :
    ∀ p ∈ batchItems channels readData, p.2.length = readData.length := by
  intro p hp
  unfold batchItems at hp
  rcases List.mem_map.mp hp with ⟨ic, _, rfl⟩
  simp [processChannel_length, column_length]

theorem dictGet_processBatch (channels : List (String × String))
    (readData : List (List ℚ)) (s : Session) (k : String) :
    dictGet (processBatch channels readData s) k =
      dictGet s k ++ gather (batchItems channels readData) k := by
  rw [processBatch_eq_storeFold, dictGet_storeFold]

theorem mem_keys_processBatch (channels : List (String × String))
    (readData : List (List ℚ)) (s : Session) (k : String) :
    k ∈ (processBatch channels readData s).map Prod.fst ↔
      k ∈ s.map Prod.fst ∨ k ∈ channels.map Prod.snd := by
  rw [processBatch_eq_storeFold, mem_keys_storeFold, batchItems_keys]

theorem nodup_keys_processBatch (channels : List (String × String))
    (readData : List (List ℚ)) (s : Session)
    (h : (s.map Prod.fst).Nodup) :
    ((processBatch channels readData s).map Prod.fst).Nodup := by
  rw [processBatch_eq_storeFold]
  exact nodup_keys_storeFold _ _ h

theorem dictGet_processBatch_length (channels : List (String × String))
    (readData : List (List ℚ)) (s : Session) {k : String}
    (hnd : (channels.map Prod.snd).Nodup) (hk : k ∈ channels.map Prod.snd) :
    (dictGet (processBatch channels readData s) k).length =
      (dictGet s k).length + readData.length := by
  rw [dictGet_processBatch, List.length_append]
  have h1 : (gather (batchItems channels readData) k).length = readData.length := by
    refine gather_length ?_ ?_ (batchItems_datalen channels readData)
    · rw [batchItems_keys]; exact hnd
    · rw [batchItems_keys]; exact hk
  omega

theorem runBatchesAux_spec (channels : List (String × String))
    (hnd : (channels.map Prod.snd).Nodup) :
    ∀ (batches : List (List (List ℚ))) (s : Session) (n : Nat),
      (∀ k ∈ channels.map Prod.snd, (dictGet s k).length = n) →
      (∀ p ∈ s, p.1 ∈ channels.map Prod.snd) →
      (s.map Prod.fst).Nodup →
      (∀ k ∈ channels.map Prod.snd,
          (dictGet (batches.foldl (fun t b => processBatch channels b t) s) k).length =
            n + (batches.map List.length).sum) ∧
      (∀ p ∈ batches.foldl (fun t b => processBatch channels b t) s,
          p.1 ∈ channels.map Prod.snd) ∧
      ((batches.foldl (fun t b => processBatch channels b t) s).map Prod.fst).Nodup := by
  intro batches
  induction batches with
  | nil =>
    intro s n h1 h2 h3
    exact ⟨by simpa using h1, h2, h3⟩
  | cons b rest ih =>
    intro s n h1 h2 h3
    have h1' : ∀ k ∈ channels.map Prod.snd,
        (dictGet (processBatch channels b s) k).length = n + b.length := by
      intro k hk
      rw [dictGet_processBatch_length channels b s hnd hk, h1 k hk]
    have h2' : ∀ p ∈ processBatch channels b s, p.1 ∈ channels.map Prod.snd := by
      intro p hp
      have : p.1 ∈ (processBatch channels b s).map Prod.fst :=
        List.mem_map_of_mem Prod.fst hp
      rcases (mem_keys_processBatch channels b s p.1).mp this with h | h
      · rcases List.mem_map.mp h with ⟨q, hq, he⟩
        exact he ▸ h2 q hq
      · exact h
    have h3' : ((processBatch channels b s).map Prod.fst).Nodup :=
      nodup_keys_processBatch channels b s h3
    have := ih (processBatch channels b s) (n + b.length) h1' h2' h3'
    refine ⟨?_, this.2.1, this.2.2⟩
    intro k hk
    have hres := this.1 k hk
    simp only [List.foldl_cons]
    simp only [List.map_cons, List.sum_cons]
    omega

theorem mem_keys_runBatchesAux (channels : List (String × String)) (k : String) :
    ∀ (batches : List (List (List ℚ))) (s : Session),
      (k ∈ ((batches.foldl (fun t b => processBatch channels b t) s).map Prod.fst) ↔
        k ∈ s.map Prod.fst ∨ (batches ≠ [] ∧ k ∈ channels.map Prod.snd)) := by
  intro batches
  induction batches with
  | nil => intro s; simp
  | cons b rest ih =>
    intro s
    simp only [List.foldl_cons]
    rw [ih (processBatch channels b s)]
    rw [mem_keys_processBatch]
    simp only [ne_eq, List.cons_ne_nil, not_false_iff, true_and]
    tauto

theorem nodup_keys_runBatchesAux (channels : List (String × String)) :
    ∀ (batches : List (List (List ℚ))) (s : Session), (s.map Prod.fst).Nodup →
      ((batches.foldl (fun t b => processBatch channels b t) s).map Prod.fst).Nodup := by
  intro batches
  induction batches with
  | nil => intro s h; exact h
  | cons b rest ih =>
    intro s h
    exact ih (processBatch channels b s) (nodup_keys_processBatch channels b s h)

/-! ## The claims -/

/-- C1: the claim states that EDA channels receive the EDA transfer function
(`raw * 3.3 / (0.132 * 2^10)`) elementwise, and ECG channels the ECG one.
The code's loop evaluates to the raw column for an EDA channel (the
`if sensor == 'ECG' ... else` statement overwrites the EDA conversion, there
is no `elif`), while `_raw_to_eda_uS 512 = 12.5`; ECG channels are converted
as claimed.  This evaluation exhibits the divergence at the failing input. -/
theorem C1_eda_conversion_overwritten :
    acquisitionSession [("A1", "EDA")] [[[0, 0, 0, 0, 0, 512]]] =
      [("EDA", [(512 : ℚ)])] ∧
    _raw_to_eda_uS 512 = 25 / 2 ∧
    (512 : ℚ) ≠ 25 / 2 ∧
    acquisitionSession [("A1", "ECG")] [[[0, 0, 0, 0, 0, 512]]] =
      [("ECG", [_raw_to_ecg_mv 512])] := by
  refine ⟨by decide, by norm_num [_raw_to_eda_uS], by norm_num, by rfl⟩

/-- C2 counterexample: the claim states that the device-busy retry re-invokes
`start_aquisition` with all nine original parameters preserved; at the
concrete call below the retry parameters differ from the original ones
(`channels`, `macAddress`, `file_name_prefix` and `print_sample_log` are
reset to their declaration defaults). -/
theorem C2_retry_drops_parameters :
    handleAcqError busyRetryParams DEVICE_NOT_IDLE =
      AcqRecovery.stopAndRetry (retryParams busyRetryParams) ∧
    retryParams busyRetryParams ≠ busyRetryParams := by
  refine ⟨by decide, by decide⟩

/-- C2 (amended): on the `DEVICE_NOT_IDLE` exception, `start_aquisition`
stops the device and re-invokes itself preserving `runtime`, `samplingRate`,
`nSamples`, `show_live_plot` and `save_to_file`, while `channels`,
`macAddress`, `file_name_prefix` and `print_sample_log` revert to the
declaration defaults. -/
theorem C2_retry_preserves_five_parameters (p : AcqParams) :
    handleAcqError p DEVICE_NOT_IDLE = AcqRecovery.stopAndRetry (retryParams p) ∧
    (retryParams p).runtime = p.runtime ∧
    (retryParams p).samplingRate = p.samplingRate ∧
    (retryParams p).nSamples = p.nSamples ∧
    (retryParams p).show_live_plot = p.show_live_plot ∧
    (retryParams p).save_to_file = p.save_to_file ∧
    (retryParams p).channels = [("A1", "EDA")] ∧
    (retryParams p).macAddress = none ∧
    (retryParams p).file_name_base = "BITALINO" ∧
    (retryParams p).print_sample_log = false := by
  refine ⟨?_, rfl, rfl, rfl, rfl, rfl, rfl, rfl, rfl, rfl⟩
  have h1 : (DEVICE_NOT_IDLE == CONTACTING_DEVICE) = false := by decide
  have h2 : (DEVICE_NOT_IDLE == DEVICE_NOT_IDLE) = true := by decide
  simp [handleAcqError, h1, h2]

/-- C3 counterexample: the claim states that after each processed batch all
per-sensor arrays have equal length for every set of requested channels;
with channels `{'A1': 'EDA', 'A2': 'EDA', 'A3': 'RAW'}` and one batch of one
sample, the `'EDA'` array has two entries while `'RAW'` has one. -/
theorem C3_lengths_not_aligned :
    ¬ (∀ p ∈ acquisitionSession [("A1", "EDA"), ("A2", "EDA"), ("A3", "RAW")]
          [[[0, 0, 0, 0, 0, 7, 8, 9]]],
        ∀ q ∈ acquisitionSession [("A1", "EDA"), ("A2", "EDA"), ("A3", "RAW")]
          [[[0, 0, 0, 0, 0, 7, 8, 9]]],
        p.2.length = q.2.length) := by decide

/-- C3 (amended): when the requested channels carry pairwise-distinct sensor
labels (after the RAW normalization), all per-sensor arrays in the session
dictionary have equal length after every sequence of processed batches. -/
theorem C3_lengths_aligned_of_distinct_sensors
    (channels : List (String × String)) (batches : List (List (List ℚ)))
    (hnd : ((normalizeSensors channels).map Prod.snd).Nodup) :
    ∀ p ∈ acquisitionSession channels batches,
      ∀ q ∈ acquisitionSession channels batches, p.2.length = q.2.length := by
  intro p hp q hq
  obtain ⟨h1, h2, h3⟩ := runBatchesAux_spec (normalizeSensors channels) hnd batches [] 0
    (fun k _ => rfl) (fun p h => absurd h (List.not_mem_nil p)) (by simp)
  have hA : acquisitionSession channels batches =
      batches.foldl (fun t b => processBatch (normalizeSensors channels) b t) [] := rfl
  rw [hA] at hp hq
  have hp2 := dictGet_eq_of_mem h3 hp
  have hq2 := dictGet_eq_of_mem h3 hq
  calc p.2.length
      = (dictGet (batches.foldl (fun t b => processBatch (normalizeSensors channels) b t) [])
          p.1).length := by rw [hp2]
    _ = 0 + (batches.map List.length).sum := h1 p.1 (h2 p hp)
    _ = (dictGet (batches.foldl (fun t b => processBatch (normalizeSensors channels) b t) [])
          q.1).length := (h1 q.1 (h2 q hq)).symm
    _ = q.2.length := by rw [hq2]

/-- C3 witness: a concrete channel map with distinct sensor labels and one
batch, instantiating the amended alignment theorem. -/
theorem C3_lengths_aligned_witness :
    ((normalizeSensors [("A1", "EDA"), ("A2", "RAW")]).map Prod.snd).Nodup ∧
    (∀ p ∈ acquisitionSession [("A1", "EDA"), ("A2", "RAW")] [[[0, 0, 0, 0, 0, 1, 2]]],
      ∀ q ∈ acquisitionSession [("A1", "EDA"), ("A2", "RAW")] [[[0, 0, 0, 0, 0, 1, 2]]],
        p.2.length = q.2.length) :=
  ⟨by decide, C3_lengths_aligned_of_distinct_sensors _ _ (by decide)⟩

/-- C4: with `save_to_file=True` the CSV written at session end has exactly
one column per requested sensor label (counted after the source's
normalization of invalid sensor types to `'RAW'`) and no other column — in
particular no index column (`to_csv(..., index=False)`); stated for sessions
with at least one polled batch. -/
theorem C4_csv_one_column_per_sensor
    (channels : List (String × String)) (batches : List (List (List ℚ)))
    (hne : batches ≠ []) (lab : String) :
    (csvColumns (acquisitionSession channels batches)).count lab =
      if lab ∈ (normalizeSensors channels).map Prod.snd then 1 else 0 := by
  have hk := mem_keys_runBatchesAux (normalizeSensors channels) lab batches []
  have hnd := nodup_keys_runBatchesAux (normalizeSensors channels) batches [] (by simp)
  by_cases hm : lab ∈ (normalizeSensors channels).map Prod.snd
  · rw [if_pos hm]
    exact List.count_eq_one_of_mem hnd (hk.mpr (Or.inr ⟨hne, hm⟩))
  · rw [if_neg hm]
    refine List.count_eq_zero_of_not_mem ?_
    intro hcon
    rcases hk.mp hcon with h | h
    · simp at h
    · exact hm h.2

/-- C4 witness: one EDA channel and one batch; the CSV has exactly one
`EDA` column. -/
theorem C4_csv_one_column_per_sensor_witness :
    ([[[(0 : ℚ), 0, 0, 0, 0, 1]]] : List (List (List ℚ))) ≠ [] ∧
    (csvColumns (acquisitionSession [("A1", "EDA")] [[[(0 : ℚ), 0, 0, 0, 0, 1]]])).count "EDA" =
      if "EDA" ∈ (normalizeSensors [("A1", "EDA")]).map Prod.snd then 1 else 0 :=
  ⟨by decide, C4_csv_one_column_per_sensor [("A1", "EDA")] [[[(0 : ℚ), 0, 0, 0, 0, 1]]]
    (by decide) "EDA"⟩

/-- C5 counterexample: the claim quantifies over every `macAddress`; at
`macAddress = None` with a vendor SDK that never raises, `connect` still
raises (the default-MAC lookup `DEFAULT_DEVICE_STATE.MAC` is a plain-dict
attribute access), leaves `connected = False` and increments the failure
counter, instead of returning `True` as the claim's no-raise case states. -/
theorem C5_none_mac_fails_despite_ok_sdk :
    connect none 5 sdkAlwaysOk initialDeviceState 0 =
      (Except.error "[Connection Error] : AttributeError: 'dict' object has no attribute 'MAC'",
        { initialDeviceState with connected := false }, 1) ∧
    (connect none 5 sdkAlwaysOk initialDeviceState 0).1 ≠ Except.ok true := by
  refine ⟨rfl, ?_⟩
  intro hcon
  have h : (connect none 5 sdkAlwaysOk initialDeviceState 0).1 =
      Except.error
        "[Connection Error] : AttributeError: 'dict' object has no attribute 'MAC'" := rfl
  rw [h] at hcon
  cases hcon

/-- C5 (amended): for every non-`None` `macAddress` and every timeout, if a
vendor SDK call inside `connect` raises, `connect` re-raises the message
prefixed with `[Connection Error]`, increments `connection_failed_counter`
and clears `connected`; if no SDK call raises, it sets `connected`, stores
the MAC, resets the counter to zero and returns `True`. -/
theorem C5_connect_some_mac (m : String) (timeout : Nat)
    (sdk : String → Nat → SDKOutcome) (st : DeviceState) (counter : Nat) :
    connect (some m) timeout sdk st counter =
      match sdk m timeout with
      | SDKOutcome.ok =>
          (Except.ok true, { st with MAC := m, connected := true }, 0)
      | SDKOutcome.raises msg =>
          (Except.error ("[Connection Error] : " ++ msg),
            { st with connected := false }, counter + 1) := by
  cases h : sdk m timeout <;> simp [connect, h]

/-- C6: every live-plot frame is the JSON encoding of the nested per-sensor
list followed by a single terminating newline (the JSON body contains no
newline, so the frame is one line), and the receiver's
`json.loads(readline().strip())` decodes it back to the original nested
list.  The payload values are Python ints and finite floats, a float being
identified with the decimal its `repr` emits (sign, integer digits, point,
at least one fractional decimal digit — the well-formedness hypothesis). -/
theorem C6_liveplot_frame_roundtrip (rows : List (List PyNum)) (hwf : wfFrame rows) :
    receiveFrame (sendFrame rows) = some rows ∧
    (sendFrame rows).data = dumps rows ++ ['\n'] ∧
    '\n' ∉ dumps rows := by
  refine ⟨?_, rfl, dumps_no_nl rows hwf⟩
  show loads (pyStrip (String.mk (dumps rows ++ ['\n'])).data) = some rows
  rw [show (String.mk (dumps rows ++ ['\n'])).data = dumps rows ++ ['\n'] from rfl]
  rw [pyStrip_frame]
  unfold loads
  rw [run_dumps rows hwf]

/-- C6 witness: a concrete two-sensor frame holding the integer 512, the
float -1.5 (an ECG-sized value, serialized `-1.5`) and the float 0.0
(serialized `0.0`), instantiating the round-trip theorem. -/
theorem C6_liveplot_frame_roundtrip_witness :
    wfFrame [[PyNum.int 512, PyNum.float ⟨true, 1, [5]⟩],
      [PyNum.float ⟨false, 0, [0]⟩]] ∧
    (receiveFrame (sendFrame [[PyNum.int 512, PyNum.float ⟨true, 1, [5]⟩],
        [PyNum.float ⟨false, 0, [0]⟩]]) =
      some [[PyNum.int 512, PyNum.float ⟨true, 1, [5]⟩],
        [PyNum.float ⟨false, 0, [0]⟩]] ∧
     (sendFrame [[PyNum.int 512, PyNum.float ⟨true, 1, [5]⟩],
        [PyNum.float ⟨false, 0, [0]⟩]]).data =
      dumps [[PyNum.int 512, PyNum.float ⟨true, 1, [5]⟩],
        [PyNum.float ⟨false, 0, [0]⟩]] ++ ['\n'] ∧
     '\n' ∉ dumps [[PyNum.int 512, PyNum.float ⟨true, 1, [5]⟩],
        [PyNum.float ⟨false, 0, [0]⟩]]) :=
  ⟨by decide, C6_liveplot_frame_roundtrip _ (by decide)⟩

/-- C7: the transfer functions `_raw_to_eda_uS` and `_raw_to_ecg_mv` are
deterministic: equal raw inputs yield equal outputs, and (being functions of
their argument alone in this embedding, as in the source, where `VCC`, `G`
and `n` are local constants) they depend on nothing else. -/
theorem C7_conversions_deterministic (r1 r2 : ℚ) (h : r1 = r2) :
    _raw_to_eda_uS r1 = _raw_to_eda_uS r2 ∧ _raw_to_ecg_mv r1 = _raw_to_ecg_mv r2 := by
  subst h
  exact ⟨rfl, rfl⟩

/-- C7 witness: instantiation of the determinism theorem at raw input 2. -/
theorem C7_conversions_deterministic_witness :
    (2 : ℚ) = 2 ∧
    (_raw_to_eda_uS 2 = _raw_to_eda_uS 2 ∧ _raw_to_ecg_mv 2 = _raw_to_ecg_mv 2) :=
  ⟨rfl, C7_conversions_deterministic 2 2 rfl⟩

theorem select_channels_go_spec :
    ∀ (cs : List String) (st : DeviceState),
      ((_select_channels_go cs st).2.selected_channels =
        st.selected_channels ++
          (cs.takeWhile (fun c => (acqChannel c).isSome)).filterMap acqChannel) ∧
      ((_select_channels_go cs st).1.isSome = true ↔ ∃ c ∈ cs, acqChannel c = none) := by
  intro cs
  induction cs with
  | nil => intro st; simp [_select_channels_go]
  | cons c cs ih =>
    intro st
    cases hc : acqChannel c with
    | some i =>
      have hgo : _select_channels_go (c :: cs) st =
          _select_channels_go cs
            { st with selected_channels := st.selected_channels ++ [i] } := by
        simp [_select_channels_go, hc]
      have hih := ih { st with selected_channels := st.selected_channels ++ [i] }
      constructor
      · rw [hgo, hih.1]
        simp [List.takeWhile_cons, hc, List.filterMap_cons]
      · rw [hgo, hih.2]
        constructor
        · exact fun ⟨x, hx, he⟩ => ⟨x, List.mem_cons_of_mem c hx, he⟩
        · rintro ⟨x, hx, he⟩
          rcases List.mem_cons.mp hx with rfl | hx'
          · exact absurd he (by simp [hc])
          · exact ⟨x, hx', he⟩
    | none =>
      constructor
      · simp [_select_channels_go, hc, List.takeWhile_cons]
      · simp only [_select_channels_go, hc, Option.isSome_some]
        exact ⟨fun _ => ⟨c, List.mem_cons_self c cs, hc⟩, fun _ => by trivial⟩

/-- C8: calling `_select_channels` with a list containing an invalid channel
name raises, yet the selection state is not left unchanged: for any prior
`selected_channels` it ends up holding exactly the mapped indices of the
valid channels preceding the first invalid one. -/
theorem C8_invalid_channel_keeps_valid_head (channels : List String) (st : DeviceState)
    (h : ∃ c ∈ channels, acqChannel c = none) :
    ((_select_channels channels st).1.isSome = true) ∧
    (_select_channels channels st).2.selected_channels =
      (channels.takeWhile (fun c => (acqChannel c).isSome)).filterMap acqChannel := by
  have hs := select_channels_go_spec channels { st with selected_channels := [] }
  exact ⟨hs.2.mpr h, by simpa using hs.1⟩

/-- C8 witness: selecting `["A1", "B9", "A3"]` with a prior selection
`[3, 4]` raises and leaves `selected_channels = [0]` (the mapped valid
prefix). -/
theorem C8_invalid_channel_keeps_valid_head_witness :
    (∃ c ∈ ["A1", "B9", "A3"], acqChannel c = none) ∧
    (((_select_channels ["A1", "B9", "A3"]
        { initialDeviceState with selected_channels := [3, 4] }).1.isSome = true) ∧
      (_select_channels ["A1", "B9", "A3"]
        { initialDeviceState with selected_channels := [3, 4] }).2.selected_channels =
        (["A1", "B9", "A3"].takeWhile (fun c => (acqChannel c).isSome)).filterMap acqChannel) :=
  ⟨by decide, C8_invalid_channel_keeps_valid_head ["A1", "B9", "A3"]
    { initialDeviceState with selected_channels := [3, 4] } (by decide)⟩

/-- C9: a rate in `{1, 10, 100, 1000}` is stored in
`device_state.sampling_rate`; any other rate raises `AttributeError` (the
fallback reads `DEFAULT_DEVICE_STATE.sampling_rate`, a plain-dict attribute
access), so the documented default of 100 is never selected and the state is
unchanged. -/
theorem C9_sampling_rate_selection (rate : Nat) (st : DeviceState) :
    _select_sampling_rate rate st =
      if rate ∈ _SAMPLING_RATES then (none, { st with sampling_rate := rate })
      else (some "AttributeError: 'dict' object has no attribute 'sampling_rate'", st) := by
  unfold _select_sampling_rate
  by_cases h : rate ∈ _SAMPLING_RATES
  · rw [if_pos h, if_pos h]
  · rw [if_neg h, if_neg h]
    rfl

/-- C10: each serialized live-plot frame row is the trailing slice of the
sensor's session array, holding at most `60 * sampling_rate` samples,
whatever the session length. -/
theorem C10_frame_window_bound (sampling_rate : Nat) (rows : List (List ℚ))
    (h : 1 ≤ sampling_rate) :
    frameRows sampling_rate rows = rows.map (pySliceLast (60 * sampling_rate)) ∧
    ∀ r ∈ rows, (pySliceLast (60 * sampling_rate) r).length ≤ 60 * sampling_rate ∧
      pySliceLast (60 * sampling_rate) r <:+ r := by
  refine ⟨rfl, ?_⟩
  intro r _
  have hm : ¬(60 * sampling_rate = 0) := by omega
  constructor
  · rw [pySliceLast, if_neg hm, List.length_drop]
    omega
  · rw [pySliceLast, if_neg hm]
    exact List.drop_suffix _ _

/-- C10 witness: instantiation at sampling rate 100 and a three-sample
session row. -/
theorem C10_frame_window_bound_witness :
    1 ≤ 100 ∧
    (frameRows 100 [[(1 : ℚ), 2, 3]] = [[(1 : ℚ), 2, 3]].map (pySliceLast (60 * 100)) ∧
      ∀ r ∈ [[(1 : ℚ), 2, 3]], (pySliceLast (60 * 100) r).length ≤ 60 * 100 ∧
        pySliceLast (60 * 100) r <:+ r) :=
  ⟨by decide, C10_frame_window_bound 100 [[(1 : ℚ), 2, 3]] (by decide)⟩
